import Mathlib

/-!
Shallow embedding of OpenRCT2's network framing layer:
`NetworkConnection` (ReadPacket / SendPacket / QueuePacket / SendQueuedPackets /
RecordPacketStats) and `NetworkPacket` (CommandRequiresAuth / ReadString).

Bytes are modelled as `Nat` values (< 256 where it matters); machine integers
are `Nat` with explicit `% 2^16` / `% 2^32` where C++ overflow semantics
matter.  Multi-byte wire fields are big-endian (network byte order), matching
`Convert::NetworkToHost` / `ByteSwapBE` on the raw header bytes.
-/

namespace OpenRCT2

/-- Big-endian encoding of a `uint16` as two wire bytes. -/
def u16be (n : Nat) : List Nat :=
  [n / 256 % 256, n % 256]

/-- Big-endian encoding of a `uint32` as four wire bytes. -/
def u32be (n : Nat) : List Nat :=
  [n / 2 ^ 24 % 256, n / 2 ^ 16 % 256, n / 2 ^ 8 % 256, n % 256]

/-- Decode two big-endian wire bytes into a `uint16` value
(`Convert::NetworkToHost` applied to the raw header storage). -/
def decodeU16BE : List Nat → Nat
  | b0 :: b1 :: _ => b0 * 256 + b1
  | _ => 0

/-- Decode four big-endian wire bytes into a `uint32` value
(`ByteSwapBE` applied to the raw header storage). -/
def decodeU32BE : List Nat → Nat
  | b0 :: b1 :: b2 :: b3 :: _ => b0 * 2 ^ 24 + b1 * 2 ^ 16 + b2 * 2 ^ 8 + b3
  | _ => 0

theorem decodeU16BE_u16be (n : Nat) (h : n < 2 ^ 16) : decodeU16BE (u16be n) = n := by
  simp only [u16be, decodeU16BE]
  have h1 : n / 256 < 256 := by omega
  rw [Nat.mod_eq_of_lt h1]
  omega

theorem decodeU32BE_u32be (n : Nat) (h : n < 2 ^ 32) : decodeU32BE (u32be n) = n := by
  simp only [u32be, decodeU32BE]
  have h1 : n / 2 ^ 24 < 256 := by omega
  rw [Nat.mod_eq_of_lt h1]
  have e1 : n % 2 ^ 24 = n / 2 ^ 16 % 256 * 2 ^ 16 + n % 2 ^ 16 := by omega
  have e2 : n % 2 ^ 16 = n / 2 ^ 8 % 256 * 2 ^ 8 + n % 2 ^ 8 := by omega
  omega

/-!
## Command identifiers

`NetworkCommand` is a `uint32` enumeration declared in `NetworkTypes.h`, which
is not part of the sources here; only the commands named by the code below are
needed.  Modelled from the spec: the numeric tag values are placeholders
(distinct small naturals) — no claim depends on the concrete values, only on
their distinctness, since `CommandRequiresAuth` and `RecordPacketStats`
dispatch through a `switch` whose `default` arm covers every other `uint32`.
-/

namespace NetworkCommand

def Auth : Nat := 0
def Map : Nat := 1
def Chat : Nat := 2
def GameAction : Nat := 3
def Tick : Nat := 4
def PlayerList : Nat := 5
def Ping : Nat := 6
def PingList : Nat := 7
def GameInfo : Nat := 9
def Token : Nat := 13
def ObjectsList : Nat := 14
def MapRequest : Nat := 15
def Scripts : Nat := 17
def Heartbeat : Nat := 18

end NetworkCommand

/-- Packet model `NetworkPacket`: header (`Size`, `Id`), body bytes and the two progress
counters.  `Header.Size` is a `uint16` and `Header.Id` a `uint32`; both are
modelled as `Nat` holding the machine value. -/
structure NetworkPacket where
  size : Nat
  id : Nat
  data : List Nat
  bytesTransferred : Nat
  bytesRead : Nat
deriving Repr, DecidableEq

/-- Source `NetworkPacket::CommandRequiresAuth`: the `switch` on `GetCommand()` —
`false` for the eight allow-listed commands, `true` for everything else
(the C++ `default` arm, which receives every other `uint32` value). -/
def CommandRequiresAuth (command : Nat) : Bool :=
  if command = NetworkCommand.Ping ∨ command = NetworkCommand.Auth ∨
      command = NetworkCommand.Token ∨ command = NetworkCommand.GameInfo ∨
      command = NetworkCommand.ObjectsList ∨ command = NetworkCommand.Scripts ∨
      command = NetworkCommand.MapRequest ∨ command = NetworkCommand.Heartbeat then
    false
  else
    true

/-- The pre-authentication allow-list as a set of command tags. -/
def preAuthCommands : List Nat :=
  [NetworkCommand.Ping, NetworkCommand.Auth, NetworkCommand.Token,
   NetworkCommand.GameInfo, NetworkCommand.ObjectsList, NetworkCommand.Scripts,
   NetworkCommand.MapRequest, NetworkCommand.Heartbeat]

/-!
## `NetworkPacket::ReadString`

The C++ scans from `BytesRead` for a zero byte:

    while (BytesRead < Data.size() && str[stringLen] != 0) { BytesRead++; stringLen++; }
    if (str[stringLen] != 0) return nullptr;

Since `BytesRead = cursor + stringLen` throughout, `str[stringLen]` is the
byte at index `BytesRead` of `Data`.  `readStringAccesses` records, in order,
every body index the function dereferences: each loop-guard read, plus the
post-loop terminator check (which re-reads the exit index — even when the loop
stopped because `BytesRead` reached `Data.size()`). -/
def readStringScanAccesses (data : List Nat) (i : Nat) : List Nat :=
  if h : i < data.length then
    if data.get ⟨i, h⟩ = 0 then
      [i, i]
    else
      i :: readStringScanAccesses data (i + 1)
  else
    [i]
termination_by data.length - i

/-- All body indices dereferenced by one `ReadString` call starting at cursor
`b0` (empty when the initial `BytesRead >= Data.size()` early-out fires,
which touches no memory). -/
def readStringAccesses (data : List Nat) (b0 : Nat) : List Nat :=
  if b0 < data.length then readStringScanAccesses data b0 else []

/-- The scan loop's exit value of `BytesRead`: the first index `≥ i` holding a
zero byte, or `data.length` when there is none. -/
def readStringScanExit (data : List Nat) (i : Nat) : Nat :=
  if h : i < data.length then
    if data.get ⟨i, h⟩ = 0 then i else readStringScanExit data (i + 1)
  else
    i
termination_by data.length - i

/-- Result of `NetworkPacket::ReadString`: `some (string, newBytesRead)` on
success, `none` on failure.  The post-loop check `str[stringLen] != 0` is
modelled with `getD _ 0`; when the exit index equals `data.length` this getD
reads a default where the C++ reads out of bounds (see the C9 analysis). -/
def ReadString (data : List Nat) (b0 : Nat) : Option (List Nat × Nat) :=
  if b0 ≥ data.length then
    none
  else
    let exitIdx := readStringScanExit data b0
    if data.getD exitIdx 0 ≠ 0 then
      none
    else
      some ((data.drop b0).take (exitIdx - b0), exitIdx + 1)

/-!
## Send side (`NetworkConnection::SendPacket`, `QueuePacket`, `SendQueuedPackets`)

The socket's `SendData(buffer, len)` is non-blocking and may accept any number
of bytes up to `len`; a send call is modelled by the number of bytes the
transport is willing to accept (`accept`), with `sent = min accept len`.
-/

/-- Size stamping: `QueuePacket` stamps `packet.Header.Size = (uint16)packet.Data.size()`
before inserting. -/
def stampSize (p : NetworkPacket) : NetworkPacket :=
  { p with size := p.data.length % 2 ^ 16 }

/-- The contiguous buffer `SendPacket` serializes: a copy of the header with
the compatibility adjustment `Size += sizeof(Header.Id)` (uint16 arithmetic)
and both fields in network byte order, followed by the body bytes. -/
def sendBuffer (p : NetworkPacket) : List Nat :=
  u16be ((p.size + 4) % 2 ^ 16) ++ u32be (p.id % 2 ^ 32) ++ p.data

/-- One `SendPacket` call: writes starting at `packet.BytesTransferred`,
advances it by the bytes the transport accepted, and reports whether the
packet is now fully sent (`BytesTransferred == buffer.size()`).  Also returns
the bytes actually handed to the socket, for tracing. -/
def SendPacketStep (p : NetworkPacket) (accept : Nat) : NetworkPacket × List Nat × Bool :=
  let buffer := sendBuffer p
  let sent := min accept (buffer.length - p.bytesTransferred)
  let emitted := (buffer.drop p.bytesTransferred).take sent
  let p2 := { p with bytesTransferred := p.bytesTransferred + sent }
  (p2, emitted, p2.bytesTransferred == buffer.length)

/-- Authentication status.  Modelled from the spec: the enumeration lives in
`NetworkTypes.h`, which is not among the sources; only `Ok` versus anything
else matters to this layer (`AuthStatus == NetworkAuth::Ok`). -/
inductive NetworkAuth where
  | Unverified
  | Ok
deriving Repr, DecidableEq

/-- Source `NetworkConnection::QueuePacket` acting on the outbound deque: auth
gating, size stamping, then tail insert, or front insert demoted to second
position when the head packet is partially sent. -/
def QueuePacket (auth : NetworkAuth) (q : List NetworkPacket) (p : NetworkPacket)
    (front : Bool) : List NetworkPacket :=
  if auth = NetworkAuth.Ok ∨ ¬ CommandRequiresAuth p.id then
    let p2 := stampSize p
    if front then
      match q with
      | head :: rest =>
        if head.bytesTransferred > 0 then head :: p2 :: rest else p2 :: head :: rest
      | [] => [p2]
    else
      q ++ [p2]
  else
    q

/-- Source `NetworkConnection::SendQueuedPackets`: pop the head while a `SendPacket`
call reports it fully sent; stop at the first packet that is not.  Each loop
iteration performs one transport interaction, consuming one entry of
`accepts` (the byte counts the transport accepts per call); an exhausted
`accepts` list models the transport accepting nothing further.  Returns the
remaining queue and the concatenation of all bytes handed to the socket. -/
def SendQueuedPackets : List NetworkPacket → List Nat → List NetworkPacket × List Nat
  | q, [] => (q, [])
  | [], _ :: _ => ([], [])
  | p :: rest, a :: as =>
    let r := SendPacketStep p a
    if r.2.2 then
      let r2 := SendQueuedPackets rest as
      (r2.1, r.2.1 ++ r2.2)
    else
      (r.1 :: rest, r.2.1)

/-!
## Receive side (`NetworkConnection::ReadPacket`)

The inbound packet during reassembly: the raw header bytes received so far
(the C++ writes them directly into the header struct's storage), the decoded
and compatibility-corrected `Header.Size` and `Header.Id` (meaningful once
all 6 header bytes are present), the body, and `BytesTransferred`.
-/

/-- Value of `sizeof(PacketHeader)`: uint16 `Size` + uint32 `Id`, packed. -/
def headerSize : Nat := 6

/-- Constant `NetworkBufferSize = 1024 * 64`, the receive scratch buffer size. -/
def NetworkBufferSize : Nat := 65536

structure InboundState where
  headerBytes : List Nat
  size : Nat
  id : Nat
  data : List Nat
  bytesTransferred : Nat
deriving Repr, DecidableEq

/-- A freshly cleared inbound packet.  `headerBytes` models the header
struct's 6-byte storage; its contents before any receive (member
initialization is in `NetworkConnection.h`, not among the sources, and
`NetworkPacket::Clear` does not touch the header) are modelled as zero.  The
counterexamples below depend only on storage positions that received bytes
overwrite, not on this choice. -/
def initialInbound : InboundState :=
  { headerBytes := [0, 0, 0, 0, 0, 0], size := 0, id := 0, data := [],
    bytesTransferred := 0 }

/-- Outcome of one `ReadPacket` call.  Modelled from the spec: the enumeration
is declared in `NetworkTypes.h`, not among the sources; `MoreData` stands for
every non-`Success` status a receive can propagate. -/
inductive NetworkReadPacket where
  | Success
  | MoreData
deriving Repr, DecidableEq

/-- The body-reading half of `ReadPacket` (entered by fall-through once the
header is complete).  `wire` is the byte stream the socket has pending and
`k` the number of bytes the transport yields per `ReceiveData` call. -/
def readBody (st : InboundState) (wire : List Nat) (k : Nat) :
    NetworkReadPacket × InboundState × List Nat :=
  let missing := st.size - (st.bytesTransferred - headerSize)
  if missing > 0 then
    let got := wire.take (min (min missing NetworkBufferSize) k)
    if got.isEmpty then
      (NetworkReadPacket.MoreData, st, wire)
    else
      let st1 := { st with bytesTransferred := st.bytesTransferred + got.length,
                           data := st.data ++ got }
      let wire1 := wire.drop got.length
      if st1.data.length = st1.size then
        (NetworkReadPacket.Success, st1, wire1)
      else
        (NetworkReadPacket.MoreData, st1, wire1)
  else
    if st.data.length = st.size then
      (NetworkReadPacket.Success, st, wire)
    else
      (NetworkReadPacket.MoreData, st, wire)

/-- One `NetworkConnection::ReadPacket` call.  While fewer than
`sizeof(header)` bytes have been transferred, receive up to the missing
header byte count into the START of the header's storage: the source passes
`reinterpret_cast<uint8_t*>(&InboundPacket.Header)` to `ReceiveData` with no
`+ BytesTransferred` offset, so a resumed header read overwrites the
previously received bytes instead of following them (positions past the
bytes just received keep their old contents).  On completing the header
(`BytesTransferred` reaches 6, however the storage was filled), convert
`Size` and `Id` from network byte order and apply the compatibility
adjustment `Size -= min(Size, sizeof(Id))`, then fall through into body
reading within the same call. -/
def ReadPacketStep (st : InboundState) (wire : List Nat) (k : Nat) :
    NetworkReadPacket × InboundState × List Nat :=
  if st.bytesTransferred < headerSize then
    let missing := headerSize - st.bytesTransferred
    let got := wire.take (min missing k)
    if got.isEmpty then
      (NetworkReadPacket.MoreData, st, wire)
    else
      let st1 := { st with headerBytes := got ++ st.headerBytes.drop got.length,
                           bytesTransferred := st.bytesTransferred + got.length }
      let wire1 := wire.drop got.length
      if st1.bytesTransferred < headerSize then
        (NetworkReadPacket.MoreData, st1, wire1)
      else
        let rawSize := decodeU16BE st1.headerBytes
        let cmd := decodeU32BE (st1.headerBytes.drop 2)
        readBody { st1 with size := rawSize - min rawSize 4, id := cmd } wire1 k
  else
    readBody st wire k

/-- Repeatedly call `ReadPacket` until it reports `Success`, one call per
entry of `chunks` (the transport's per-call byte allowance); `none` when the
allowance list is exhausted first. -/
def ReadPacketLoop (st : InboundState) (wire : List Nat) :
    List Nat → Option InboundState
  | [] => none
  | k :: ks =>
    match ReadPacketStep st wire k with
    | (NetworkReadPacket.Success, st1, _) => some st1
    | (NetworkReadPacket.MoreData, st1, wire1) => ReadPacketLoop st1 wire1 ks

/-!
## Statistics (`NetworkConnection::RecordPacketStats`)

`Stats.bytesSent` / `Stats.bytesReceived` are arrays indexed by
`NetworkStatisticsGroup` {Base, Commands, MapData, Total}; modelled as named
fields. -/

structure NetworkStats where
  sentBase : Nat
  sentCommands : Nat
  sentMapData : Nat
  sentTotal : Nat
  recvBase : Nat
  recvCommands : Nat
  recvMapData : Nat
  recvTotal : Nat
deriving Repr, DecidableEq

/-- The `switch (packet.GetCommand())` classification: `GameAction` to the
commands group, `Map` to the map-data group, everything else to base.
Groups are named here by the sent-direction field selector they update. -/
inductive NetworkStatisticsGroup where
  | Base
  | Commands
  | MapData
deriving Repr, DecidableEq

def trafficGroup (command : Nat) : NetworkStatisticsGroup :=
  if command = NetworkCommand.GameAction then NetworkStatisticsGroup.Commands
  else if command = NetworkCommand.Map then NetworkStatisticsGroup.MapData
  else NetworkStatisticsGroup.Base

/-- Source `NetworkConnection::RecordPacketStats`: adds
`(uint32)packet.BytesTransferred` to the packet's traffic-group counter and
to the `Total` counter, in the sending or receiving direction. -/
def RecordPacketStats (stats : NetworkStats) (p : NetworkPacket) (sending : Bool) :
    NetworkStats :=
  let packetSize := p.bytesTransferred % 2 ^ 32
  if sending then
    match trafficGroup p.id with
    | NetworkStatisticsGroup.Commands =>
      { stats with sentCommands := stats.sentCommands + packetSize,
                   sentTotal := stats.sentTotal + packetSize }
    | NetworkStatisticsGroup.MapData =>
      { stats with sentMapData := stats.sentMapData + packetSize,
                   sentTotal := stats.sentTotal + packetSize }
    | NetworkStatisticsGroup.Base =>
      { stats with sentBase := stats.sentBase + packetSize,
                   sentTotal := stats.sentTotal + packetSize }
  else
    match trafficGroup p.id with
    | NetworkStatisticsGroup.Commands =>
      { stats with recvCommands := stats.recvCommands + packetSize,
                   recvTotal := stats.recvTotal + packetSize }
    | NetworkStatisticsGroup.MapData =>
      { stats with recvMapData := stats.recvMapData + packetSize,
                   recvTotal := stats.recvTotal + packetSize }
    | NetworkStatisticsGroup.Base =>
      { stats with recvBase := stats.recvBase + packetSize,
                   recvTotal := stats.recvTotal + packetSize }

/-!
## Connection state

Fields of `NetworkConnection` other than the socket handle (external).  Used
to state that a gated `QueuePacket` leaves the whole connection unchanged. -/

structure ConnectionState where
  inboundPacket : InboundState
  authStatus : NetworkAuth
  outboundPackets : List NetworkPacket
  lastPacketTime : Nat
  shouldDisconnect : Bool
  lastDisconnectReason : Option (List Nat)
  stats : NetworkStats
deriving Repr, DecidableEq

/-- Behavior of `QueuePacket` at connection level: only the outbound deque may change. -/
def QueuePacketConn (c : ConnectionState) (p : NetworkPacket) (front : Bool) :
    ConnectionState :=
  { c with outboundPackets := QueuePacket c.authStatus c.outboundPackets p front }

/-!
## Theorems
-/

theorem readBody_preserves (st : InboundState) (wire : List Nat) (k : Nat) :
    (readBody st wire k).2.1.size = st.size ∧ (readBody st wire k).2.1.id = st.id := by
  unfold readBody
  dsimp only
  split
  · split
    · exact ⟨rfl, rfl⟩
    · split <;> exact ⟨rfl, rfl⟩
  · split <;> exact ⟨rfl, rfl⟩

/-- C7.  Pre-authentication allow-list: `CommandRequiresAuth` returns `false`
exactly for the command set {Ping, Auth, Token, GameInfo, ObjectsList,
Scripts, MapRequest, Heartbeat}, and `true` for every other command
identifier. -/
theorem commandRequiresAuth_allowlist (c : Nat) :
    CommandRequiresAuth c = false ↔ c ∈ preAuthCommands := by
  unfold CommandRequiresAuth preAuthCommands
  split <;> simp_all

/-- C6.  Auth gating atomicity: queuing a packet whose command requires
authentication while `AuthStatus != Ok` leaves the entire connection state
(outbound queue included) unchanged — the packet is dropped, not buffered. -/
theorem auth_gating_unchanged (c : ConnectionState) (p : NetworkPacket) (front : Bool)
    (hreq : CommandRequiresAuth p.id = true) (hauth : c.authStatus ≠ NetworkAuth.Ok) :
    QueuePacketConn c p front = c := by
  have hgate : ¬ (c.authStatus = NetworkAuth.Ok ∨ ¬ CommandRequiresAuth p.id = true) := by
    rintro (h | h)
    · exact hauth h
    · exact h hreq
  unfold QueuePacketConn QueuePacket
  rw [if_neg hgate]

theorem auth_gating_unchanged_witness :
    QueuePacketConn
        { inboundPacket := initialInbound, authStatus := NetworkAuth.Unverified,
          outboundPackets := [], lastPacketTime := 0, shouldDisconnect := false,
          lastDisconnectReason := none,
          stats := ⟨0, 0, 0, 0, 0, 0, 0, 0⟩ }
        { size := 0, id := NetworkCommand.GameAction, data := [1], bytesTransferred := 0,
          bytesRead := 0 } false =
      { inboundPacket := initialInbound, authStatus := NetworkAuth.Unverified,
        outboundPackets := [], lastPacketTime := 0, shouldDisconnect := false,
        lastDisconnectReason := none,
        stats := ⟨0, 0, 0, 0, 0, 0, 0, 0⟩ } :=
  auth_gating_unchanged _ _ false (by decide) (by decide)

/-- C5.  Priority insertion never splits an in-flight packet: with the auth
gate passed, `QueuePacket(C, front := true)` inserts at the head when the
queue is empty or the head has `BytesTransferred = 0`, and at the second
position when the head is partially sent. -/
theorem priority_insert_no_split (auth : NetworkAuth) (q : List NetworkPacket)
    (p : NetworkPacket) (hauth : auth = NetworkAuth.Ok ∨ ¬ CommandRequiresAuth p.id) :
    (∀ a rest, q = a :: rest → a.bytesTransferred > 0 →
      QueuePacket auth q p true = a :: stampSize p :: rest) ∧
    (∀ a rest, q = a :: rest → a.bytesTransferred = 0 →
      QueuePacket auth q p true = stampSize p :: a :: rest) ∧
    (q = [] → QueuePacket auth q p true = [stampSize p]) := by
  unfold QueuePacket
  rw [if_pos hauth]
  refine ⟨?_, ?_, ?_⟩
  · rintro a rest rfl ha
    simp [ha]
  · rintro a rest rfl ha
    simp [ha]
  · rintro rfl
    rfl

theorem priority_insert_no_split_witness :
    QueuePacket NetworkAuth.Ok
        [{ size := 9, id := 2, data := [1, 2, 3], bytesTransferred := 4, bytesRead := 0 },
         { size := 0, id := 4, data := [], bytesTransferred := 0, bytesRead := 0 }]
        { size := 0, id := 6, data := [7], bytesTransferred := 0, bytesRead := 0 } true =
      [{ size := 9, id := 2, data := [1, 2, 3], bytesTransferred := 4, bytesRead := 0 },
       stampSize { size := 0, id := 6, data := [7], bytesTransferred := 0, bytesRead := 0 },
       { size := 0, id := 4, data := [], bytesTransferred := 0, bytesRead := 0 }] :=
  (priority_insert_no_split NetworkAuth.Ok _ _ (Or.inl rfl)).1 _ _ rfl (by decide)

/-- C8.  Traffic statistics update and frame: recording a fully sent
`GameAction` packet with 50 transferred bytes adds 50 to exactly the
commands-group sent counter and the sent total; in general each recorded
packet adds its `BytesTransferred` to exactly one group counter plus the
total counter of its direction, leaving every other counter unchanged. -/
theorem record_stats_frame (stats : NetworkStats) (p : NetworkPacket) (sending : Bool)
    (hbt : p.bytesTransferred < 2 ^ 32) :
    (p.id = NetworkCommand.GameAction → p.bytesTransferred = 50 → sending = true →
      RecordPacketStats stats p sending =
        { stats with sentCommands := stats.sentCommands + 50,
                     sentTotal := stats.sentTotal + 50 }) ∧
    (sending = true →
      RecordPacketStats stats p sending =
          { stats with sentCommands := stats.sentCommands + p.bytesTransferred,
                       sentTotal := stats.sentTotal + p.bytesTransferred } ∨
        RecordPacketStats stats p sending =
          { stats with sentMapData := stats.sentMapData + p.bytesTransferred,
                       sentTotal := stats.sentTotal + p.bytesTransferred } ∨
        RecordPacketStats stats p sending =
          { stats with sentBase := stats.sentBase + p.bytesTransferred,
                       sentTotal := stats.sentTotal + p.bytesTransferred }) ∧
    (sending = false →
      RecordPacketStats stats p sending =
          { stats with recvCommands := stats.recvCommands + p.bytesTransferred,
                       recvTotal := stats.recvTotal + p.bytesTransferred } ∨
        RecordPacketStats stats p sending =
          { stats with recvMapData := stats.recvMapData + p.bytesTransferred,
                       recvTotal := stats.recvTotal + p.bytesTransferred } ∨
        RecordPacketStats stats p sending =
          { stats with recvBase := stats.recvBase + p.bytesTransferred,
                       recvTotal := stats.recvTotal + p.bytesTransferred }) := by
  have hmod : p.bytesTransferred % 2 ^ 32 = p.bytesTransferred := Nat.mod_eq_of_lt hbt
  have hmod4 : p.bytesTransferred % 4294967296 = p.bytesTransferred := hmod
  refine ⟨?_, ?_, ?_⟩
  · rintro hid hfifty rfl
    unfold RecordPacketStats trafficGroup
    simp [hid, hmod, hmod4, hfifty]
  · rintro rfl
    unfold RecordPacketStats trafficGroup
    by_cases hga : p.id = NetworkCommand.GameAction
    · left
      simp [hga, hmod, hmod4, NetworkCommand.GameAction, NetworkCommand.Map]
    · by_cases hmap : p.id = NetworkCommand.Map
      · right; left
        simp [hga, hmap, hmod, hmod4, NetworkCommand.GameAction, NetworkCommand.Map]
      · right; right
        simp [hga, hmap, hmod, hmod4]
  · rintro rfl
    unfold RecordPacketStats trafficGroup
    by_cases hga : p.id = NetworkCommand.GameAction
    · left
      simp [hga, hmod, hmod4, NetworkCommand.GameAction, NetworkCommand.Map]
    · by_cases hmap : p.id = NetworkCommand.Map
      · right; left
        simp [hga, hmap, hmod, hmod4, NetworkCommand.GameAction, NetworkCommand.Map]
      · right; right
        simp [hga, hmap, hmod, hmod4]

theorem record_stats_frame_witness :
    RecordPacketStats ⟨0, 0, 0, 0, 0, 0, 0, 0⟩
        { size := 44, id := NetworkCommand.GameAction, data := [], bytesTransferred := 50,
          bytesRead := 0 } true =
      { sentBase := 0, sentCommands := 50, sentMapData := 0, sentTotal := 50,
        recvBase := 0, recvCommands := 0, recvMapData := 0, recvTotal := 0 } :=
  (record_stats_frame ⟨0, 0, 0, 0, 0, 0, 0, 0⟩
      { size := 44, id := NetworkCommand.GameAction, data := [], bytesTransferred := 50,
        bytesRead := 0 } true (by decide)).1 rfl rfl rfl

/-- C9.  The claim that `ReadString` inspects only in-bounds body positions is
violated by the code: on a body with no zero terminator at or after the
cursor, the scan loop stops at `BytesRead == Data.size()` and the post-loop
terminator check `str[stringLen] != 0` then dereferences index
`Data.size()`, one byte past the end of the body.  At body `[1, 2, 3]` and
cursor 0 the function touches index 3 = `len(body)`. -/
theorem readString_oob_access :
    readStringAccesses [1, 2, 3] 0 = [0, 1, 2, 3] ∧
    3 ∈ readStringAccesses [1, 2, 3] 0 ∧ ([1, 2, 3] : List Nat).length ≤ 3 := by
  refine ⟨?_, ?_, by decide⟩ <;>
    simp [readStringAccesses, readStringScanAccesses]

/-- C10.  Undersized wire length cannot underflow: when the wire size field
decodes to `s < 4`, the compatibility adjustment subtracts
`min(s, sizeof(Id)) = s`, so the corrected `Header.Size` is 0 and the same
`ReadPacket` call that completes the header reports `Success` with an empty
body (nothing wraps around). -/
theorem undersized_size_no_underflow (s cmd : Nat) (rest : List Nat) (k : Nat)
    (hs : s < 4) (hcmd : cmd < 2 ^ 32) (hk : 6 ≤ k) :
    ReadPacketStep initialInbound (u16be s ++ u32be cmd ++ rest) k =
      (NetworkReadPacket.Success,
       { headerBytes := u16be s ++ u32be cmd, size := 0, id := cmd, data := [],
         bytesTransferred := 6 }, rest) := by
  have hk6 : min 6 k = 6 := Nat.min_eq_left hk
  have hdiv : s / 256 = 0 := by omega
  have hmod : s % 256 = s := by omega
  unfold ReadPacketStep readBody initialInbound headerSize
  simp only [u16be, u32be, hdiv, hmod]
  norm_num [hk6, decodeU16BE, decodeU32BE, List.take, List.drop]
  rw [if_neg (by omega : ¬ 4 < s), if_pos (by omega : (0 : Nat) = s - s ⊓ 4)]
  simp only [Prod.mk.injEq, InboundState.mk.injEq, true_and, and_true]
  omega

theorem undersized_size_no_underflow_witness :
    ReadPacketStep initialInbound (u16be 2 ++ u32be 5 ++ [9, 9]) 6 =
      (NetworkReadPacket.Success,
       { headerBytes := u16be 2 ++ u32be 5, size := 0, id := 5, data := [],
         bytesTransferred := 6 }, [9, 9]) :=
  undersized_size_no_underflow 2 5 [9, 9] 6 (by decide) (by decide) (by decide)

theorem length_six_cons (w : List Nat) (hw : 6 ≤ w.length) :
    ∃ a b c d e f t, w = a :: b :: c :: d :: e :: f :: t := by
  rcases w with _ | ⟨a, _ | ⟨b, _ | ⟨c, _ | ⟨d, _ | ⟨e, _ | ⟨f, t⟩⟩⟩⟩⟩⟩
  all_goals simp only [List.length_cons, List.length_nil] at hw
  all_goals first
    | omega
    | exact ⟨a, b, c, d, e, f, t, rfl⟩

/-- C2.  The claim fails on the code: the resumed header receive writes at
the start of the header storage — the source passes
`reinterpret_cast<uint8_t*>(&InboundPacket.Header)` to `ReceiveData` with no
`+ BytesTransferred` offset — so the second chunk of a 3 + 3 header feed
overwrites the first.  For wire bytes `[0, 5, 0, 0, 0, 9]` followed by one
body byte, the two-chunk feed leaves `[0, 0]` (from the second chunk) in the
size bytes of the storage and decodes corrected size 0, while the one-chunk
feed decodes raw size 5, corrected size 1: the decoded headers differ.  (The
size field after the second chunk consists entirely of just-received wire
bytes, so this divergence does not depend on how the storage's initial
contents are modelled.) -/
theorem partial_header_overwrite :
    (ReadPacketStep (ReadPacketStep initialInbound [0, 5, 0, 0, 0, 9, 1] 3).2.1
        (ReadPacketStep initialInbound [0, 5, 0, 0, 0, 9, 1] 3).2.2 3).2.1.size = 0 ∧
    (ReadPacketStep initialInbound [0, 5, 0, 0, 0, 9, 1] 6).2.1.size = 1 ∧
    ¬ ((ReadPacketStep (ReadPacketStep initialInbound [0, 5, 0, 0, 0, 9, 1] 3).2.1
          (ReadPacketStep initialInbound [0, 5, 0, 0, 0, 9, 1] 3).2.2 3).2.1.size =
        (ReadPacketStep initialInbound [0, 5, 0, 0, 0, 9, 1] 6).2.1.size) := by
  decide

/-- C3 counterexample: at body length 65532 the `uint16` size stamping and
the `+ 4` compatibility addition wrap, so the wire size field is 0, not
`len(body) + 4 = 65536`. -/
theorem header_size_wire_compat_counterexample :
    decodeU16BE ((sendBuffer (stampSize
        { size := 0, id := 0, data := List.replicate 65532 0, bytesTransferred := 0,
          bytesRead := 0 })).take 2) ≠ (List.replicate 65532 (0 : Nat)).length + 4 := by
  have hlen : (List.replicate 65532 (0 : Nat)).length = 65532 :=
    List.length_replicate 65532 0
  have hgen : ∀ d : List Nat, d.length = 65532 →
      decodeU16BE ((sendBuffer (stampSize
        { size := 0, id := 0, data := d, bytesTransferred := 0,
          bytesRead := 0 })).take 2) = 0 := by
    intro d hd
    have hb : sendBuffer (stampSize
        { size := 0, id := 0, data := d, bytesTransferred := 0, bytesRead := 0 }) =
        (0 : Nat) :: 0 :: (u32be (0 % 2 ^ 32) ++ d) := by
      simp only [sendBuffer, stampSize, hd]
      norm_num [u16be]
    rw [hb]
    rfl
  rw [hgen _ hlen, hlen]
  omega

/-- C3 (amended).  Header size wire compatibility for bodies that fit the
`uint16` wire field: for every body length ≤ 65531 the size field emitted on
the wire by the send path equals `len(body) + sizeof(command)`, and the
decode-side subtraction exactly cancels the addition, reconstructing
`header.Size = len(body)`. -/
theorem header_size_wire_compat (p : NetworkPacket) (k : Nat)
    (h : p.data.length ≤ 65531) (hk : 6 ≤ k) :
    decodeU16BE ((sendBuffer (stampSize p)).take 2) = p.data.length + 4 ∧
    (ReadPacketStep initialInbound (sendBuffer (stampSize p)) k).2.1.size =
      p.data.length := by
  have hm1 : p.data.length % 2 ^ 16 = p.data.length := Nat.mod_eq_of_lt (by omega)
  have hm2 : (p.data.length + 4) % 2 ^ 16 = p.data.length + 4 := Nat.mod_eq_of_lt (by omega)
  have hm1n : p.data.length % 65536 = p.data.length := hm1
  have hm2n : (p.data.length + 4) % 65536 = p.data.length + 4 := hm2
  have hwire : sendBuffer (stampSize p) =
      u16be (p.data.length + 4) ++ u32be (p.id % 2 ^ 32) ++ p.data := by
    simp [sendBuffer, stampSize, hm1, hm2, hm1n, hm2n]
  have hw6 : 6 ≤ (sendBuffer (stampSize p)).length := by
    rw [hwire]
    simp [u16be, u32be]
  obtain ⟨a, b, c, d, e, f, t, hcons⟩ := length_six_cons _ hw6
  have hdec : decodeU16BE (sendBuffer (stampSize p)) = p.data.length + 4 := by
    rw [hwire]
    rw [show u16be (p.data.length + 4) ++ u32be (p.id % 2 ^ 32) ++ p.data =
        u16be (p.data.length + 4) ++ (u32be (p.id % 2 ^ 32) ++ p.data) from by
      simp]
    show decodeU16BE (u16be (p.data.length + 4)) = p.data.length + 4
    exact decodeU16BE_u16be _ (by omega)
  constructor
  · rw [hcons] at hdec ⊢
    simpa [decodeU16BE] using hdec
  · have hstep : ReadPacketStep initialInbound (a :: b :: c :: d :: e :: f :: t) k =
        readBody { headerBytes := [a, b, c, d, e, f],
                   size := a * 256 + b - min (a * 256 + b) 4,
                   id := c * 2 ^ 24 + d * 2 ^ 16 + e * 2 ^ 8 + f,
                   data := [], bytesTransferred := 6 } t k := by
      have hmin : min 6 k = 6 := Nat.min_eq_left hk
      unfold ReadPacketStep
      simp only [initialInbound, headerSize, hmin]
      norm_num [decodeU16BE, decodeU32BE]
    have hsz : a * 256 + b = p.data.length + 4 := by
      rw [hcons] at hdec
      simpa [decodeU16BE] using hdec
    rw [hcons, hstep, (readBody_preserves _ _ _).1]
    simp [hsz]

theorem header_size_wire_compat_witness :
    decodeU16BE ((sendBuffer (stampSize
        { size := 0, id := 7, data := [1, 2], bytesTransferred := 0,
          bytesRead := 0 })).take 2) = 2 + 4 ∧
    (ReadPacketStep initialInbound
        (sendBuffer (stampSize
          { size := 0, id := 7, data := [1, 2], bytesTransferred := 0,
            bytesRead := 0 })) 6).2.1.size = 2 :=
  header_size_wire_compat
    { size := 0, id := 7, data := [1, 2], bytesTransferred := 0, bytesRead := 0 } 6
    (by decide) (by decide)

/-!
## Outbound ordering (C4)

A caller's interactions with the outbound side are tail enqueues
(`QueuePacket(..., front = false)`) and `SendQueuedPackets` calls; the
transport nondeterminism is the per-`SendData`-call accepted byte count. -/

inductive SendOp where
  | enq (id : Nat) (data : List Nat)
  | drain (accepts : List Nat)

/-- One caller interaction applied to (outbound queue, cumulative bytes handed
to the socket). -/
def sendOpStep (acc : List NetworkPacket × List Nat) (op : SendOp) :
    List NetworkPacket × List Nat :=
  match op with
  | SendOp.enq id data =>
      (QueuePacket NetworkAuth.Ok acc.1
        { size := 0, id := id, data := data, bytesTransferred := 0, bytesRead := 0 } false,
       acc.2)
  | SendOp.drain accepts =>
      ((SendQueuedPackets acc.1 accepts).1, acc.2 ++ (SendQueuedPackets acc.1 accepts).2)

def runSendOps (ops : List SendOp) : List NetworkPacket × List Nat :=
  ops.foldl sendOpStep ([], [])

/-- The not-yet-transmitted bytes of the queue, in queue order. -/
def pendingBytes (q : List NetworkPacket) : List Nat :=
  q.flatMap fun p => (sendBuffer p).drop p.bytesTransferred

/-- The full serializations of all packets enqueued by an op sequence, in
enqueue order. -/
def enqueuedBytes (ops : List SendOp) : List Nat :=
  ops.flatMap fun op =>
    match op with
    | SendOp.enq id data =>
        sendBuffer (stampSize
          { size := 0, id := id, data := data, bytesTransferred := 0, bytesRead := 0 })
    | SendOp.drain _ => []

/-- Only the head of the outbound queue may be partially transmitted. -/
def tailUnsent (q : List NetworkPacket) : Prop :=
  ∀ x ∈ q.drop 1, x.bytesTransferred = 0

theorem sendPacketStep_buffer (p : NetworkPacket) (a : Nat) :
    sendBuffer (SendPacketStep p a).1 = sendBuffer p := rfl

theorem sendPacketStep_emit (p : NetworkPacket) (a : Nat) :
    (SendPacketStep p a).2.1 ++
        (sendBuffer p).drop (SendPacketStep p a).1.bytesTransferred =
      (sendBuffer p).drop p.bytesTransferred := by
  show ((sendBuffer p).drop p.bytesTransferred).take _ ++
      (sendBuffer p).drop (p.bytesTransferred + _) = (sendBuffer p).drop p.bytesTransferred
  exact List.drop_take_append_drop ..

theorem sendPacketStep_complete (p : NetworkPacket) (a : Nat)
    (h : (SendPacketStep p a).2.2 = true) :
    (sendBuffer p).drop (SendPacketStep p a).1.bytesTransferred = [] := by
  simp only [SendPacketStep, beq_iff_eq] at h
  show (sendBuffer p).drop (p.bytesTransferred + _) = []
  rw [h]
  exact List.drop_length _

theorem pendingBytes_nil : pendingBytes [] = [] := rfl

theorem pendingBytes_cons (p : NetworkPacket) (q : List NetworkPacket) :
    pendingBytes (p :: q) =
      (sendBuffer p).drop p.bytesTransferred ++ pendingBytes q := by
  simp [pendingBytes]

theorem sendQueuedPackets_trace (as : List Nat) : ∀ q : List NetworkPacket,
    (SendQueuedPackets q as).2 ++ pendingBytes (SendQueuedPackets q as).1 =
      pendingBytes q := by
  induction as with
  | nil =>
    intro q
    simp [SendQueuedPackets]
  | cons a as ih =>
    intro q
    cases q with
    | nil => simp [SendQueuedPackets, pendingBytes]
    | cons p rest =>
      simp only [SendQueuedPackets]
      cases hc : (SendPacketStep p a).2.2 with
      | true =>
        simp only [hc, if_true]
        have h1 := sendPacketStep_emit p a
        rw [sendPacketStep_complete p a hc, List.append_nil] at h1
        rw [pendingBytes_cons, List.append_assoc, ih rest, h1]
      | false =>
        simp only [hc, Bool.false_eq_true, if_false]
        rw [pendingBytes_cons, pendingBytes_cons, sendPacketStep_buffer,
          ← List.append_assoc, sendPacketStep_emit p a]

theorem sendQueuedPackets_tailUnsent (as : List Nat) : ∀ q : List NetworkPacket,
    tailUnsent q → tailUnsent (SendQueuedPackets q as).1 := by
  induction as with
  | nil =>
    intro q h
    simpa [SendQueuedPackets] using h
  | cons a as ih =>
    intro q h
    cases q with
    | nil => simpa [SendQueuedPackets] using h
    | cons p rest =>
      simp only [SendQueuedPackets]
      cases hc : (SendPacketStep p a).2.2 with
      | true =>
        simp only [hc, if_true]
        apply ih rest
        intro x hx
        exact h x (by simpa using List.mem_of_mem_drop hx)
      | false =>
        simp only [hc, Bool.false_eq_true, if_false]
        intro x hx
        exact h x (by simpa using hx)

theorem queuePacket_tail_eq (q : List NetworkPacket) (p : NetworkPacket) :
    QueuePacket NetworkAuth.Ok q p false = q ++ [stampSize p] := by
  simp [QueuePacket]

theorem runOps_inv (ops : List SendOp) : ∀ (q : List NetworkPacket) (tr : List Nat),
    (ops.foldl sendOpStep (q, tr)).2 ++ pendingBytes (ops.foldl sendOpStep (q, tr)).1 =
      tr ++ (pendingBytes q ++ enqueuedBytes ops) ∧
    (tailUnsent q → tailUnsent (ops.foldl sendOpStep (q, tr)).1) := by
  induction ops with
  | nil =>
    intro q tr
    simp [enqueuedBytes]
  | cons op ops ih =>
    intro q tr
    cases op with
    | enq id data =>
      simp only [List.foldl_cons, sendOpStep, queuePacket_tail_eq]
      constructor
      · rw [(ih _ _).1]
        simp [pendingBytes, enqueuedBytes, List.append_assoc, stampSize]
      · intro h
        apply (ih _ _).2
        intro x hx
        cases q with
        | nil => simp at hx
        | cons p0 q0 =>
          simp only [List.cons_append, List.drop_succ_cons, List.drop_zero] at hx
          rcases List.mem_append.1 hx with hx | hx
          · exact h x (by simpa using hx)
          · rw [List.mem_singleton.1 hx]
            rfl
    | drain accepts =>
      simp only [List.foldl_cons, sendOpStep]
      constructor
      · have ht := sendQueuedPackets_trace accepts q
        rw [(ih _ _).1]
        conv_rhs => rw [← ht]
        simp [enqueuedBytes, List.append_assoc]
      · intro h
        exact (ih _ _).2 (sendQueuedPackets_tailUnsent _ _ h)

/-- C4.  Strict in-order delivery: over every sequence of tail enqueues and
`SendQueuedPackets` calls against a transport that may accept any number of
bytes per send (including one), the bytes handed to the socket followed by
the queue's still-pending suffixes reconstitute exactly the in-order
concatenation of the enqueued packets' serializations — hence the trace is a
prefix of that concatenation and no byte of packet N+1 is passed to the
socket before every byte of packet N — and only the queue's head packet is
ever partially sent (heads are popped exactly when fully sent). -/
theorem strict_in_order_send (ops : List SendOp) :
    (runSendOps ops).2 ++ pendingBytes (runSendOps ops).1 = enqueuedBytes ops ∧
    (∃ rest, (runSendOps ops).2 ++ rest = enqueuedBytes ops) ∧
    ∀ x ∈ (runSendOps ops).1.drop 1, x.bytesTransferred = 0 := by
  have h := runOps_inv ops [] []
  have h1 : (runSendOps ops).2 ++ pendingBytes (runSendOps ops).1 = enqueuedBytes ops := by
    have := h.1
    simpa [runSendOps, pendingBytes] using this
  exact ⟨h1, ⟨pendingBytes (runSendOps ops).1, h1⟩,
    h.2 (by intro x hx; simp at hx)⟩

/-!
## Framing round trip (C1)

The round trip asserted by the spec fails on the code: the header-resumption
overwrite (see `ReadPacketStep`) garbles any header delivered in more than
one chunk, so delivery in sufficiently small chunks can never reconstruct the
sent packet.
-/

/-- C1.  The claim fails on the code: with the transport delivering one byte
per call, every resumed header receive overwrites byte 0 of the header
storage, so after the six header bytes of the frame for command 3 and body
`[10, 20]` (wire `[0, 6, 0, 0, 0, 3, 10, 20]`) the storage holds
`[3, 0, 0, 0, 0, 0]` — decoded corrected size 764 instead of 2 — and the two
remaining body bytes can never satisfy it: every call reports `MoreData` and
no completed inbound packet is ever produced, with the byte budget the claim
implies (one call per wire byte) or with twice that many calls. -/
theorem one_byte_chunks_never_complete :
    ReadPacketLoop initialInbound
        (sendBuffer (stampSize
          { size := 0, id := 3, data := [10, 20], bytesTransferred := 0,
            bytesRead := 0 })) [1, 1, 1, 1, 1, 1, 1, 1] = none ∧
    ReadPacketLoop initialInbound
        (sendBuffer (stampSize
          { size := 0, id := 3, data := [10, 20], bytesTransferred := 0,
            bytesRead := 0 }))
        [1, 1, 1, 1, 1, 1, 1, 1, 1, 1, 1, 1, 1, 1, 1, 1] = none := by
  decide

end OpenRCT2
